import Mathlib

/-!
Shallow embedding of the RDF-schema → JSON-LD context converter
(`src/main.py`, class `SchemaToJsonLdConverter`).

Python dictionaries are modelled as association lists (`List (String × α)`)
with insertion-order semantics: inserting an existing key replaces the value
in place, a new key is appended at the end.  Python sets used only for
membership are modelled as `List String`.  `None`-able strings are
`Option String`.
-/

/-- Python `d[k] = v` on an insertion-ordered dict: replace in place if the
key exists, otherwise append. -/
def insertKV {α : Type} (l : List (String × α)) (k : String) (v : α) :
    List (String × α) :=
  match l with
  | [] => [(k, v)]
  | (k', v') :: t => if k' = k then (k, v) :: t else (k', v') :: insertKV t k v

/-- Python `d.get(k)` / `d[k]` lookup on an insertion-ordered dict. -/
def alookup {α : Type} (l : List (String × α)) (k : String) : Option α :=
  match l with
  | [] => none
  | (k', v) :: t => if k' = k then some v else alookup t k

/-- Python `d.update(m)`: insert every entry of `m` into `d`, in `m`'s order. -/
def dictUpdate {α : Type} (l m : List (String × α)) : List (String × α) :=
  m.foldl (fun acc p => insertKV acc p.1 p.2) l

/-- The suffix of `s` strictly after the last occurrence of the character
`c` (the whole of `s` when `c` does not occur): Python
`s.split(c)[-1]` for a one-character separator. -/
def afterLastChar (s : String) (c : Char) : String :=
  ⟨(s.data.reverse.takeWhile (fun x => x != c)).reverse⟩

/-- `_extract_local_name`: the part after the final `#` if a `#` occurs,
else after the final `/` if a `/` occurs, else the URI itself. -/
def extractLocalName (uri : String) : String :=
  if uri.data.contains '#' then afterLastChar uri '#'
  else if uri.data.contains '/' then afterLastChar uri '/'
  else uri

/-- `pat` occurs as a contiguous run inside `s` (character lists). -/
def occursInChars (pat : List Char) : List Char → Bool
  | [] => pat.isEmpty
  | c :: t => pat.isPrefixOf (c :: t) || occursInChars pat t

/-- Python `pat in s` on strings: substring containment. -/
def containsSubstr (s pat : String) : Bool :=
  occursInChars pat.data s.data

/-- The property reference attached into a class's own-property mapping by
`extract_properties` (keys `@id`, `label`, `comment`, `range`). -/
structure PropRef where
  id : String
  label : Option String
  comment : Option String
  range : Option String
deriving DecidableEq, Repr

/-- The global property-registry entry built by `extract_properties`
(keys `@id`, `label`, `comment`, `domain`, `range`; the label falls back to
the local name). -/
structure PropDesc where
  id : String
  label : String
  comment : Option String
  domain : Option String
  range : Option String
deriving DecidableEq, Repr

/-- The class descriptor built by `extract_classes` (keys `@id`, `label`,
`comment`, `subClassOf`, `properties`). -/
structure ClassData where
  id : String
  label : String
  comment : Option String
  subClassOf : Option String
  properties : List (String × PropRef)
deriving DecidableEq, Repr

/-- The queryable triple store seen by the extractor: the subjects typed
`rdfs:Class` resp. `rdfs:Property` in store order, and the single-valued
predicate lookups (`None` when absent, as returned by the `_get_*`
helpers). -/
structure Store where
  classSubjects : List String
  propSubjects : List String
  label : String → Option String
  comment : String → Option String
  subClassOf : String → Option String
  domain : String → Option String
  range : String → Option String

/-- Python truthiness of an optional string: `None` and `""` are falsy,
every other string is truthy. -/
def pyTruthy : Option String → Bool
  | none => false
  | some s => s != ""

/-- Python `x or d` on an optional string `x`: the string itself when
truthy, the default otherwise. -/
def pyOr (o : Option String) (d : String) : String :=
  match o with
  | some s => if s = "" then d else s
  | none => d

/-- `extract_classes`: one registry entry per class-typed subject, keyed by
local name; an absent label defaults to the local name
(`label or class_name`). -/
def extractClasses (s : Store) : List (String × ClassData) :=
  s.classSubjects.foldl
    (fun acc uri =>
      let name := extractLocalName uri
      insertKV acc name
        { id := uri
          label := pyOr (s.label uri) name
          comment := s.comment uri
          subClassOf := s.subClassOf uri
          properties := [] })
    []

/-- One step of `extract_properties` for a single property subject:
record it in the global registry and, when its domain's local name matches a
known class, attach a `PropRef` into that class's own-property mapping. -/
def extractPropStep (s : Store)
    (st : List (String × PropDesc) × List (String × ClassData)) (uri : String) :
    List (String × PropDesc) × List (String × ClassData) :=
  let name := extractLocalName uri
  let label := s.label uri
  let comment := s.comment uri
  let domain := s.domain uri
  let range := s.range uri
  let props := insertKV st.1 name
    { id := uri, label := pyOr label name, comment := comment,
      domain := domain, range := range }
  let classes :=
    match domain with
    | none => st.2
    | some d =>
      if d = "" then st.2
      else
        let domainClass := extractLocalName d
        match alookup st.2 domainClass with
        | none => st.2
        | some cd =>
          let pref : PropRef :=
            { id := uri, label := label, comment := comment, range := range }
          insertKV st.2 domainClass
            { cd with properties := insertKV cd.properties name pref }
  (props, classes)

/-- `extract_properties`: fold `extractPropStep` over all property-typed
subjects, starting from an empty property registry and the given class
registry. -/
def extractProperties (s : Store) (classes : List (String × ClassData)) :
    List (String × PropDesc) × List (String × ClassData) :=
  s.propSubjects.foldl (extractPropStep s) ([], classes)

/-- Key set of an association list. -/
def keysOf {α : Type} (l : List (String × α)) : List String := l.map Prod.fst

theorem alookup_isSome_iff_mem {α : Type} (l : List (String × α)) (k : String) :
    (alookup l k).isSome ↔ k ∈ keysOf l := by
  induction l with
  | nil => simp [alookup, keysOf]
  | cons p t ih =>
    obtain ⟨k', v⟩ := p
    simp only [alookup, keysOf, List.map_cons, List.mem_cons]
    by_cases h : k' = k
    · simp [h]
    · simp only [if_neg h]
      rw [ih]
      constructor
      · intro hm
        exact Or.inr (by simpa [keysOf] using hm)
      · rintro (h' | h')
        · exact absurd h'.symm h
        · simpa [keysOf] using h'

/-- `_get_inherited_properties`: recursively collect properties from parent
classes, guarded by a visited set; own properties override inherited ones. -/
def getInheritedProperties (classes : List (String × ClassData))
    (className : String) (visited : List String) : List (String × PropRef) :=
  if className ∈ visited then []
  else
    match h : alookup classes className with
    | none => []
    | some cd =>
      dictUpdate
        (match cd.subClassOf with
         | none => []
         | some parentUri =>
             getInheritedProperties classes (extractLocalName parentUri)
               (className :: visited))
        cd.properties
termination_by ((keysOf classes).toFinset \ visited.toFinset).card
decreasing_by
  have hmem : className ∈ keysOf classes :=
    (alookup_isSome_iff_mem classes className).mp (by rw [h]; rfl)
  have hnv : className ∉ visited := by assumption
  apply Finset.card_lt_card
  have hsub : (keysOf classes).toFinset \ (className :: visited).toFinset ⊆
      (keysOf classes).toFinset \ visited.toFinset := by
    apply Finset.sdiff_subset_sdiff (le_refl _)
    intro n hn
    simp only [List.mem_toFinset, List.mem_cons] at hn ⊢
    exact Or.inr hn
  refine (Finset.ssubset_iff_of_subset hsub).mpr ⟨className, ?_, ?_⟩
  · simp only [Finset.mem_sdiff, List.mem_toFinset]
    exact ⟨hmem, hnv⟩
  · simp

/-- The superclass chain of a class as walked by the resolver: the class
itself first, then its parent, and so on, cut off at cycles (visited set)
and at unknown class names. -/
def superChain (classes : List (String × ClassData)) (className : String)
    (visited : List String) : List ClassData :=
  if className ∈ visited then []
  else
    match h : alookup classes className with
    | none => []
    | some cd =>
      cd :: (match cd.subClassOf with
        | none => []
        | some parentUri =>
            superChain classes (extractLocalName parentUri) (className :: visited))
termination_by ((keysOf classes).toFinset \ visited.toFinset).card
decreasing_by
  have hmem : className ∈ keysOf classes :=
    (alookup_isSome_iff_mem classes className).mp (by rw [h]; rfl)
  have hnv : className ∉ visited := by assumption
  apply Finset.card_lt_card
  have hsub : (keysOf classes).toFinset \ (className :: visited).toFinset ⊆
      (keysOf classes).toFinset \ visited.toFinset := by
    apply Finset.sdiff_subset_sdiff (le_refl _)
    intro n hn
    simp only [List.mem_toFinset, List.mem_cons] at hn ⊢
    exact Or.inr hn
  refine (Finset.ssubset_iff_of_subset hsub).mpr ⟨className, ?_, ?_⟩
  · simp only [Finset.mem_sdiff, List.mem_toFinset]
    exact ⟨hmem, hnv⟩
  · simp

/-- The specification's reading of the effective property set: overlay the
own-property mappings of the superclass chain, farthest ancestor first,
finishing with the class's own mapping. -/
def overlayEffectiveSet (classes : List (String × ClassData))
    (className : String) : List (String × PropRef) :=
  ((superChain classes className []).reverse).foldl
    (fun acc cd => dictUpdate acc cd.properties) []

/-- JSON values as emitted by the converter: every value written into a
context document is either a string or a string-keyed object. -/
inductive Val where
  | str : String → Val
  | obj : List (String × Val) → Val

/-- The fixed four-prefix `@context` preamble shared by every emitted
document. -/
def nsPreamble (baseUri : String) : List (String × Val) :=
  [("cim", Val.str baseUri),
   ("xsd", Val.str "http://www.w3.org/2001/XMLSchema#"),
   ("rdf", Val.str "http://www.w3.org/1999/02/22-rdf-syntax-ns#"),
   ("rdfs", Val.str "http://www.w3.org/2000/01/rdf-schema#")]

/-- The per-property object built inside `_build_class_context`: always an
`@id`; an `@type` only when a range is recorded (datatype `xsd:<local>`
when the range URI contains `"XMLSchema"`, else `"@id"`); optional
`rdfs:label` / `rdfs:comment` passthrough. -/
def renderProp (pd : PropRef) : List (String × Val) :=
  let ctx : List (String × Val) := [("@id", Val.str pd.id)]
  let ctx :=
    match pd.range with
    | none => ctx
    | some rangeUri =>
      if rangeUri = "" then ctx
      else if containsSubstr rangeUri "XMLSchema" then
        insertKV ctx "@type" (Val.str ("xsd:" ++ extractLocalName rangeUri))
      else
        insertKV ctx "@type" (Val.str "@id")
  let ctx :=
    match pd.label with
    | none => ctx
    | some lab => if lab = "" then ctx else insertKV ctx "rdfs:label" (Val.str lab)
  match pd.comment with
  | none => ctx
  | some c => if c = "" then ctx else insertKV ctx "rdfs:comment" (Val.str c)

/-- `_build_class_context`: the class context document — preamble, class
`@id`/`@type`/`rdfs:label`, optional comment and subclass link, then one
`cim:<name>`-keyed entry per effective property. -/
def buildClassContext (baseUri : String) (classData : ClassData)
    (allProperties : List (String × PropRef)) : List (String × Val) :=
  let context : List (String × Val) :=
    [("@context", Val.obj (nsPreamble baseUri)),
     ("@id", Val.str classData.id),
     ("@type", Val.str "rdfs:Class"),
     ("rdfs:label", Val.str classData.label)]
  let context :=
    match classData.comment with
    | none => context
    | some c => if c = "" then context else insertKV context "rdfs:comment" (Val.str c)
  let context :=
    match classData.subClassOf with
    | none => context
    | some parent =>
      if parent = "" then context
      else
        insertKV context "rdfs:subClassOf"
          (Val.obj [("@id", Val.str parent), ("@type", Val.str "@id")])
  allProperties.foldl
    (fun ctx p => insertKV ctx ("cim:" ++ p.1) (Val.obj (renderProp p.2))) context

/-- `generate_class_contexts`: one `(file-name-stem, document)` pair per
registry entry, in registry order; each document embeds the class's
effective (own + inherited) property set. -/
def generateClassContexts (baseUri : String)
    (classes : List (String × ClassData)) :
    List (String × List (String × Val)) :=
  classes.map (fun p =>
    (p.1, buildClassContext baseUri p.2 (getInheritedProperties classes p.1 [])))

/-- Python `s.rstrip('/')`: remove every trailing `/`. -/
def rstripSlashes (s : String) : String :=
  ⟨(s.data.reverse.dropWhile (fun c => c = '/')).reverse⟩

/-- `__init__`'s normalisation of `context_base_url`: `None` (and the falsy
empty string) stay `None`, otherwise all trailing slashes are stripped. -/
def initContextBaseUrl : Option String → Option String
  | none => none
  | some s => if s = "" then none else some (rstripSlashes s)

/-- The per-class `@context` URL of the root document: absolute
`<base>/CIM/<name>.jsonld` when the stored `context_base_url` is truthy,
else the relative `CIM/<name>.jsonld`. -/
def classContextUrl (contextBaseUrl : Option String) (className : String) :
    String :=
  if pyTruthy contextBaseUrl then
    (contextBaseUrl.getD "") ++ "/CIM/" ++ className ++ ".jsonld"
  else
    "CIM/" ++ className ++ ".jsonld"

/-- Strict code-point lexicographic comparison of character lists, the
order Python uses to compare strings (executable). -/
def charListLt : List Char → List Char → Bool
  | [], [] => false
  | [], _ :: _ => true
  | _ :: _, [] => false
  | a :: as, b :: bs =>
    if a < b then true
    else if b < a then false
    else charListLt as bs

/-- Python's strict string comparison `a < b` (`pyLt_iff_lt` below shows it
is the standard strict order on `String`). -/
def pyLt (a b : String) : Prop := charListLt a.data b.data = true

instance : DecidableRel pyLt :=
  fun a b => inferInstanceAs (Decidable (charListLt a.data b.data = true))

/-- Python's string comparison `a <= b` (`pyLe_iff_le` below shows it is
the standard order on `String`). -/
def pyLe (a b : String) : Prop := charListLt b.data a.data = false

instance : DecidableRel pyLe :=
  fun a b => inferInstanceAs (Decidable (charListLt b.data a.data = false))

/-- `generate_main_context`: the root document — the preamble object,
into which one entry per class is inserted in `sorted(classes.keys())`
order, each `{"@id": "cim:<name>", "@context": <url>}`. -/
def generateMainContext (baseUri : String) (contextBaseUrl : Option String)
    (classes : List (String × ClassData)) : List (String × Val) :=
  let inner :=
    (List.insertionSort pyLe (keysOf classes)).foldl
      (fun acc className =>
        insertKV acc className
          (Val.obj [("@id", Val.str ("cim:" ++ className)),
                    ("@context", Val.str (classContextUrl contextBaseUrl className))]))
      (nsPreamble baseUri)
  [("@context", Val.obj inner)]

theorem alookup_insertKV_self {α : Type} (l : List (String × α)) (k : String)
    (v : α) : alookup (insertKV l k v) k = some v := by
  induction l with
  | nil => simp [insertKV, alookup]
  | cons p t ih =>
    obtain ⟨k', v'⟩ := p
    by_cases h : k' = k
    · simp [insertKV, alookup, h]
    · simp [insertKV, alookup, h, ih]

theorem alookup_insertKV_ne {α : Type} (l : List (String × α)) (k k' : String)
    (v : α) (h : k' ≠ k) : alookup (insertKV l k v) k' = alookup l k' := by
  have hkk : ¬k = k' := fun he => h he.symm
  induction l with
  | nil => simp [insertKV, alookup, hkk]
  | cons p t ih =>
    obtain ⟨k₀, v₀⟩ := p
    by_cases h0 : k₀ = k
    · subst h0
      simp [insertKV, alookup, hkk]
    · simp [insertKV, alookup, h0, ih]

theorem mem_keysOf_insertKV {α : Type} (l : List (String × α)) (k a : String)
    (v : α) : a ∈ keysOf (insertKV l k v) ↔ a = k ∨ a ∈ keysOf l := by
  induction l with
  | nil => simp [insertKV, keysOf]
  | cons p t ih =>
    obtain ⟨k', v'⟩ := p
    by_cases h : k' = k
    · subst h
      simp [insertKV, keysOf]
    · simp only [insertKV, if_neg h, keysOf, List.map_cons, List.mem_cons]
      rw [show (List.map Prod.fst (insertKV t k v) : List String) =
        keysOf (insertKV t k v) from rfl, ih]
      simp [keysOf]
      tauto

theorem insertKV_of_not_mem {α : Type} (l : List (String × α)) (k : String)
    (v : α) (h : k ∉ keysOf l) : insertKV l k v = l ++ [(k, v)] := by
  induction l with
  | nil => simp [insertKV]
  | cons p t ih =>
    obtain ⟨k', v'⟩ := p
    simp only [keysOf, List.map_cons, List.mem_cons] at h
    push_neg at h
    have h1 : ¬k' = k := fun he => h.1 he.symm
    have h2 : k ∉ keysOf t := by simpa [keysOf] using h.2
    simp [insertKV, h1, ih h2]

theorem keysOf_insertKV_of_mem {α : Type} (l : List (String × α)) (k : String)
    (v : α) (h : k ∈ keysOf l) : keysOf (insertKV l k v) = keysOf l := by
  induction l with
  | nil => simp [keysOf] at h
  | cons p t ih =>
    obtain ⟨k', v'⟩ := p
    by_cases h0 : k' = k
    · simp [insertKV, keysOf, h0]
    · simp only [keysOf, List.map_cons, List.mem_cons] at h
      rcases h with h | h
      · exact absurd h.symm h0
      · have h2 : k ∈ keysOf t := by simpa [keysOf] using h
        have h3 := ih h2
        simp only [keysOf] at h3 ⊢
        simp [insertKV, h0, h3]

theorem nodup_keysOf_insertKV {α : Type} (l : List (String × α)) (k : String)
    (v : α) (h : (keysOf l).Nodup) : (keysOf (insertKV l k v)).Nodup := by
  by_cases hm : k ∈ keysOf l
  · rw [keysOf_insertKV_of_mem l k v hm]; exact h
  · rw [insertKV_of_not_mem l k v hm]
    simp only [keysOf, List.map_append, List.map_cons, List.map_nil]
    rw [List.nodup_append]
    refine ⟨h, List.nodup_singleton _, ?_⟩
    intro a ha hb
    simp only [List.mem_singleton] at hb
    subst hb
    exact hm (by simpa [keysOf] using ha)

theorem mem_insertKV {α : Type} (l : List (String × α)) (k : String) (v : α)
    (p : String × α) (h : p ∈ insertKV l k v) : p ∈ l ∨ p = (k, v) := by
  induction l with
  | nil => simpa [insertKV] using h
  | cons q t ih =>
    obtain ⟨k', v'⟩ := q
    by_cases h0 : k' = k
    · simp only [insertKV, if_pos h0, List.mem_cons] at h
      rcases h with h | h
      · exact Or.inr h
      · exact Or.inl (List.mem_cons_of_mem _ h)
    · simp only [insertKV, if_neg h0, List.mem_cons] at h
      rcases h with h | h
      · exact Or.inl (by simp [h])
      · rcases ih h with h' | h'
        · exact Or.inl (List.mem_cons_of_mem _ h')
        · exact Or.inr h'

theorem alookup_eq_none_iff {α : Type} (l : List (String × α)) (k : String) :
    alookup l k = none ↔ k ∉ keysOf l := by
  rw [← alookup_isSome_iff_mem]
  cases alookup l k <;> simp

theorem alookup_mem {α : Type} {l : List (String × α)} {k : String} {v : α}
    (h : alookup l k = some v) : (k, v) ∈ l := by
  induction l with
  | nil => simp [alookup] at h
  | cons p t ih =>
    obtain ⟨k', v'⟩ := p
    by_cases h0 : k' = k
    · subst h0
      simp only [alookup] at h
      have hv : v' = v := by simpa using h
      subst hv
      exact List.mem_cons_self _ _
    · simp only [alookup, if_neg h0] at h
      exact List.mem_cons_of_mem _ (ih h)

theorem dictUpdate_nil {α : Type} (l : List (String × α)) :
    dictUpdate l [] = l := rfl

theorem dictUpdate_cons {α : Type} (l : List (String × α)) (k : String)
    (v : α) (m : List (String × α)) :
    dictUpdate l ((k, v) :: m) = dictUpdate (insertKV l k v) m := rfl

theorem mem_dictUpdate {α : Type} (l m : List (String × α)) (p : String × α)
    (h : p ∈ dictUpdate l m) : p ∈ l ∨ p ∈ m := by
  induction m generalizing l with
  | nil => exact Or.inl h
  | cons q t ih =>
    obtain ⟨k, v⟩ := q
    rw [dictUpdate_cons] at h
    rcases ih _ h with h' | h'
    · rcases mem_insertKV _ _ _ _ h' with h'' | h''
      · exact Or.inl h''
      · exact Or.inr (by simp [h''])
    · exact Or.inr (List.mem_cons_of_mem _ h')

theorem alookup_dictUpdate {α : Type} (l m : List (String × α)) (k : String)
    (hm : (keysOf m).Nodup) :
    alookup (dictUpdate l m) k = (alookup m k).or (alookup l k) := by
  induction m generalizing l with
  | nil => simp [dictUpdate_nil, alookup]
  | cons q t ih =>
    obtain ⟨k', v⟩ := q
    simp only [keysOf, List.map_cons, List.nodup_cons] at hm
    rw [dictUpdate_cons]
    rw [ih _ (by simpa [keysOf] using hm.2)]
    by_cases h0 : k' = k
    · subst h0
      have ht : alookup t k' = none := by
        rw [alookup_eq_none_iff]
        simpa [keysOf] using hm.1
      simp [alookup, ht, alookup_insertKV_self]
    · simp [alookup, h0, alookup_insertKV_ne _ _ _ _ (fun he => h0 he.symm)]

theorem gip_eq_overlay (classes : List (String × ClassData)) (className : String)
    (visited : List String) :
    getInheritedProperties classes className visited =
      ((superChain classes className visited).reverse).foldl
        (fun acc cd => dictUpdate acc cd.properties) [] := by
  induction className, visited using getInheritedProperties.induct classes with
  | case1 className visited h =>
      rw [getInheritedProperties.eq_def, superChain.eq_def]
      simp [h]
  | case2 className visited hnv hnone =>
      rw [getInheritedProperties.eq_def, superChain.eq_def]
      rw [if_neg hnv, if_neg hnv]
      split
      · simp
      · rename_i cd heq
        rw [heq] at hnone
        exact absurd hnone (by simp)
  | case3 className visited hnv cd hcd ih =>
      rw [getInheritedProperties.eq_def, superChain.eq_def]
      rw [if_neg hnv, if_neg hnv]
      split
      · rename_i heq
        rw [heq] at hcd
        exact absurd hcd (by simp)
      · rename_i cd' heq
        split
        · simp
        · rename_i parentUri heq2
          simp only [List.reverse_cons, List.foldl_append,
            List.foldl_cons, List.foldl_nil]
          rw [ih parentUri]

theorem gip_of_visited (classes : List (String × ClassData)) (className : String)
    (visited : List String) (h : className ∈ visited) :
    getInheritedProperties classes className visited = [] := by
  rw [getInheritedProperties.eq_def]
  simp [h]

theorem gip_of_unknown (classes : List (String × ClassData)) (className : String)
    (visited : List String) (hnv : className ∉ visited)
    (h : alookup classes className = none) :
    getInheritedProperties classes className visited = [] := by
  rw [getInheritedProperties.eq_def, if_neg hnv]
  split
  · rfl
  · rename_i cd heq
    rw [heq] at h
    exact absurd h (by simp)

theorem gip_of_found (classes : List (String × ClassData)) (className : String)
    (visited : List String) (cd : ClassData) (hnv : className ∉ visited)
    (h : alookup classes className = some cd) :
    getInheritedProperties classes className visited =
      dictUpdate
        (match cd.subClassOf with
         | none => []
         | some parentUri =>
             getInheritedProperties classes (extractLocalName parentUri)
               (className :: visited))
        cd.properties := by
  rw [getInheritedProperties.eq_def, if_neg hnv]
  split
  · rename_i heq
    rw [heq] at h
    exact absurd h (by simp)
  · rename_i cd' heq
    rw [heq] at h
    injection h with h
    subst h
    rfl

theorem cim_key_ne (n k : String) (h : k.data.head? ≠ some 'c') :
    ("cim:" ++ n) ≠ k := by
  intro he
  apply h
  rw [← he, String.data_append]
  rfl

theorem cim_key_inj {a b : String} (h : ("cim:" ++ a) = ("cim:" ++ b)) :
    a = b := by
  have hd : ("cim:" ++ a).data = ("cim:" ++ b).data := congrArg String.data h
  rw [String.data_append, String.data_append] at hd
  exact String.ext (List.append_cancel_left hd)

theorem alookup_foldl_insertProps_of_ne (props : List (String × PropRef))
    (ctx : List (String × Val)) (k : String)
    (h : ∀ p ∈ props, ("cim:" ++ p.1) ≠ k) :
    alookup (props.foldl
      (fun ctx p => insertKV ctx ("cim:" ++ p.1) (Val.obj (renderProp p.2))) ctx) k
      = alookup ctx k := by
  induction props generalizing ctx with
  | nil => rfl
  | cons p t ih =>
    rw [List.foldl_cons, ih _ (fun q hq => h q (List.mem_cons_of_mem _ hq))]
    exact alookup_insertKV_ne _ _ _ _ (Ne.symm (h p (List.mem_cons_self _ _)))

theorem alookup_foldl_insertProps (props : List (String × PropRef))
    (ctx : List (String × Val)) (k : String)
    (h : ∀ n : String, ("cim:" ++ n) ≠ k) :
    alookup (props.foldl
      (fun ctx p => insertKV ctx ("cim:" ++ p.1) (Val.obj (renderProp p.2))) ctx) k
      = alookup ctx k :=
  alookup_foldl_insertProps_of_ne props ctx k (fun p _ => h p.1)

theorem alookup_foldl_insertProps_mem (props : List (String × PropRef))
    (ctx : List (String × Val)) (n : String) (pd : PropRef)
    (hnd : (keysOf props).Nodup) (hmem : (n, pd) ∈ props) :
    alookup (props.foldl
      (fun ctx p => insertKV ctx ("cim:" ++ p.1) (Val.obj (renderProp p.2))) ctx)
      ("cim:" ++ n) = some (Val.obj (renderProp pd)) := by
  induction props generalizing ctx with
  | nil => cases hmem
  | cons q t ih =>
    obtain ⟨m, qd⟩ := q
    simp only [keysOf, List.map_cons, List.nodup_cons] at hnd
    rw [List.foldl_cons]
    rcases List.mem_cons.mp hmem with he | hm
    · rw [Prod.mk.injEq] at he
      obtain ⟨he1, he2⟩ := he
      subst he1; subst he2
      rw [alookup_foldl_insertProps_of_ne]
      · exact alookup_insertKV_self _ _ _
      · intro p hp he
        have : p.1 = n := cim_key_inj he
        apply hnd.1
        rw [← this]
        exact List.mem_map_of_mem Prod.fst hp
    · exact ih _ (by simpa [keysOf] using hnd.2) hm

theorem alookup_renderProp_id (pd : PropRef) :
    alookup (renderProp pd) "@id" = some (Val.str pd.id) := by
  unfold renderProp
  cases hr : pd.range <;> cases hl : pd.label <;> cases hc : pd.comment <;>
    simp only [] <;> (try split_ifs) <;> simp [alookup, insertKV]

theorem alookup_renderProp_type_of_range (pd : PropRef) (r : String)
    (hr : pd.range = some r) (hne : r ≠ "") :
    alookup (renderProp pd) "@type" =
      some (Val.str (if containsSubstr r "XMLSchema" then
        "xsd:" ++ extractLocalName r else "@id")) := by
  unfold renderProp
  rw [hr]
  cases hl : pd.label <;> cases hc : pd.comment <;>
    simp only [] <;> (try split_ifs) <;> simp_all [alookup, insertKV]

theorem alookup_renderProp_type_of_no_range (pd : PropRef)
    (hr : pd.range = none) :
    alookup (renderProp pd) "@type" = none := by
  unfold renderProp
  rw [hr]
  cases hl : pd.label <;> cases hc : pd.comment <;>
    simp only [] <;> (try split_ifs) <;> simp [alookup, insertKV]

theorem alookup_buildClassContext_id (b : String) (cd : ClassData)
    (props : List (String × PropRef)) :
    alookup (buildClassContext b cd props) "@id" = some (Val.str cd.id) := by
  unfold buildClassContext
  rw [alookup_foldl_insertProps _ _ _ (fun n => cim_key_ne n _ (by decide))]
  cases hs : cd.subClassOf <;> cases hc : cd.comment <;>
    simp only [] <;> (try split_ifs) <;> simp [alookup, insertKV]

theorem alookup_buildClassContext_type (b : String) (cd : ClassData)
    (props : List (String × PropRef)) :
    alookup (buildClassContext b cd props) "@type" = some (Val.str "rdfs:Class") := by
  unfold buildClassContext
  rw [alookup_foldl_insertProps _ _ _ (fun n => cim_key_ne n _ (by decide))]
  cases hs : cd.subClassOf <;> cases hc : cd.comment <;>
    simp only [] <;> (try split_ifs) <;> simp [alookup, insertKV]

theorem alookup_buildClassContext_label (b : String) (cd : ClassData)
    (props : List (String × PropRef)) :
    alookup (buildClassContext b cd props) "rdfs:label" =
      some (Val.str cd.label) := by
  unfold buildClassContext
  rw [alookup_foldl_insertProps _ _ _ (fun n => cim_key_ne n _ (by decide))]
  cases hs : cd.subClassOf <;> cases hc : cd.comment <;>
    simp only [] <;> (try split_ifs) <;> simp [alookup, insertKV]

theorem alookup_buildClassContext_comment_some (b : String) (cd : ClassData)
    (props : List (String × PropRef)) (c : String) (hc : cd.comment = some c)
    (hcne : c ≠ "") :
    alookup (buildClassContext b cd props) "rdfs:comment" =
      some (Val.str c) := by
  unfold buildClassContext
  rw [alookup_foldl_insertProps _ _ _ (fun n => cim_key_ne n _ (by decide))]
  rw [hc]
  cases hs : cd.subClassOf <;>
    simp only [] <;> (try split_ifs) <;> simp_all [alookup, insertKV]

theorem alookup_buildClassContext_comment_none (b : String) (cd : ClassData)
    (props : List (String × PropRef)) (hc : cd.comment = none) :
    alookup (buildClassContext b cd props) "rdfs:comment" = none := by
  unfold buildClassContext
  rw [alookup_foldl_insertProps _ _ _ (fun n => cim_key_ne n _ (by decide))]
  rw [hc]
  cases hs : cd.subClassOf <;>
    simp only [] <;> (try split_ifs) <;> simp [alookup, insertKV]

theorem alookup_buildClassContext_subclass_some (b : String) (cd : ClassData)
    (props : List (String × PropRef)) (p : String) (hs : cd.subClassOf = some p)
    (hpne : p ≠ "") :
    alookup (buildClassContext b cd props) "rdfs:subClassOf" =
      some (Val.obj [("@id", Val.str p), ("@type", Val.str "@id")]) := by
  unfold buildClassContext
  rw [alookup_foldl_insertProps _ _ _ (fun n => cim_key_ne n _ (by decide))]
  rw [hs]
  cases hc : cd.comment <;>
    simp only [] <;> (try split_ifs) <;> simp_all [alookup, insertKV]

theorem alookup_buildClassContext_subclass_none (b : String) (cd : ClassData)
    (props : List (String × PropRef)) (hs : cd.subClassOf = none) :
    alookup (buildClassContext b cd props) "rdfs:subClassOf" = none := by
  unfold buildClassContext
  rw [alookup_foldl_insertProps _ _ _ (fun n => cim_key_ne n _ (by decide))]
  rw [hs]
  cases hc : cd.comment <;>
    simp only [] <;> (try split_ifs) <;> simp [alookup, insertKV]

theorem alookup_buildClassContext_prop (b : String) (cd : ClassData)
    (props : List (String × PropRef)) (n : String) (pd : PropRef)
    (hnd : (keysOf props).Nodup) (hmem : (n, pd) ∈ props) :
    alookup (buildClassContext b cd props) ("cim:" ++ n) =
      some (Val.obj (renderProp pd)) := by
  unfold buildClassContext
  exact alookup_foldl_insertProps_mem props _ n pd hnd hmem

theorem keysOf_extractPropStep (s : Store)
    (st : List (String × PropDesc) × List (String × ClassData)) (uri : String) :
    keysOf (extractPropStep s st uri).2 = keysOf st.2 := by
  unfold extractPropStep
  cases hd : s.domain uri
  · rfl
  · rename_i d
    by_cases hde : d = ""
    · simp [hde]
    · simp only [if_neg hde]
      cases hl : alookup st.2 (extractLocalName d)
      · rfl
      · rename_i cd
        simp only []
        exact keysOf_insertKV_of_mem _ _ _
          ((alookup_isSome_iff_mem _ _).mp (by rw [hl]; rfl))

theorem keysOf_foldl_extractPropStep (s : Store) (uris : List String)
    (st : List (String × PropDesc) × List (String × ClassData)) :
    keysOf (uris.foldl (extractPropStep s) st).2 = keysOf st.2 := by
  induction uris generalizing st with
  | nil => rfl
  | cons u t ih => rw [List.foldl_cons, ih, keysOf_extractPropStep]

theorem keysOf_extractProperties (s : Store)
    (classes : List (String × ClassData)) :
    keysOf (extractProperties s classes).2 = keysOf classes :=
  keysOf_foldl_extractPropStep s s.propSubjects ([], classes)

theorem extractPropStep_no_attach (s : Store)
    (st : List (String × PropDesc) × List (String × ClassData)) (uri u₀ : String)
    (hdom : ∀ d, s.domain u₀ = some d → extractLocalName d ∉ keysOf st.2)
    (hinv : ∀ p ∈ st.2, ∀ q ∈ p.2.properties, q.2.id ≠ u₀) :
    ∀ p ∈ (extractPropStep s st uri).2, ∀ q ∈ p.2.properties, q.2.id ≠ u₀ := by
  intro p hp q hq
  unfold extractPropStep at hp
  simp only [] at hp
  by_cases hu : uri = u₀
  · subst hu
    cases hd : s.domain uri with
    | none =>
      simp only [hd] at hp
      exact hinv p hp q hq
    | some d =>
      simp only [hd] at hp
      by_cases hde : d = ""
      · simp only [if_pos hde] at hp
        exact hinv p hp q hq
      · simp only [if_neg hde] at hp
        have hnone : alookup st.2 (extractLocalName d) = none :=
          (alookup_eq_none_iff _ _).mpr (hdom d hd)
        simp only [hnone] at hp
        exact hinv p hp q hq
  · cases hd : s.domain uri with
    | none =>
      simp only [hd] at hp
      exact hinv p hp q hq
    | some d =>
      simp only [hd] at hp
      by_cases hde : d = ""
      · simp only [if_pos hde] at hp
        exact hinv p hp q hq
      · simp only [if_neg hde] at hp
        cases hl : alookup st.2 (extractLocalName d) with
        | none =>
          simp only [hl] at hp
          exact hinv p hp q hq
        | some cd =>
          simp only [hl] at hp
          rcases mem_insertKV _ _ _ _ hp with hp' | hp'
          · exact hinv p hp' q hq
          · subst hp'
            simp only [] at hq
            rcases mem_insertKV _ _ _ _ hq with hq' | hq'
            · exact hinv _ (alookup_mem hl) q hq'
            · subst hq'
              simpa using hu

theorem extractProperties_no_attach (s : Store)
    (classes0 : List (String × ClassData)) (u₀ : String)
    (hdom : ∀ d, s.domain u₀ = some d → extractLocalName d ∉ keysOf classes0)
    (hstart : ∀ p ∈ classes0, ∀ q ∈ p.2.properties, q.2.id ≠ u₀) :
    ∀ p ∈ (extractProperties s classes0).2, ∀ q ∈ p.2.properties,
      q.2.id ≠ u₀ := by
  unfold extractProperties
  suffices hgen : ∀ (uris : List String)
      (st : List (String × PropDesc) × List (String × ClassData)),
      keysOf st.2 = keysOf classes0 →
      (∀ p ∈ st.2, ∀ q ∈ p.2.properties, q.2.id ≠ u₀) →
      ∀ p ∈ (uris.foldl (extractPropStep s) st).2, ∀ q ∈ p.2.properties,
        q.2.id ≠ u₀ by
    exact hgen s.propSubjects ([], classes0) rfl hstart
  intro uris
  induction uris with
  | nil => intro st _ hinv; exact hinv
  | cons u t ih =>
    intro st hkeys hinv
    rw [List.foldl_cons]
    refine ih _ (by rw [keysOf_extractPropStep, hkeys]) ?_
    exact extractPropStep_no_attach s st u u₀ (fun d hd => hkeys ▸ hdom d hd) hinv

theorem keysOf_extractPropStep_fst_mono (s : Store)
    (st : List (String × PropDesc) × List (String × ClassData)) (uri k : String)
    (h : k ∈ keysOf st.1) : k ∈ keysOf (extractPropStep s st uri).1 := by
  unfold extractPropStep
  simp only []
  exact (mem_keysOf_insertKV _ _ _ _).mpr (Or.inr h)

theorem keysOf_extractPropStep_fst_self (s : Store)
    (st : List (String × PropDesc) × List (String × ClassData)) (uri : String) :
    extractLocalName uri ∈ keysOf (extractPropStep s st uri).1 := by
  unfold extractPropStep
  simp only []
  exact (mem_keysOf_insertKV _ _ _ _).mpr (Or.inl rfl)

theorem extractProperties_records (s : Store)
    (classes : List (String × ClassData)) (u₀ : String)
    (hu : u₀ ∈ s.propSubjects) :
    extractLocalName u₀ ∈ keysOf (extractProperties s classes).1 := by
  unfold extractProperties
  suffices hgen : ∀ (uris : List String)
      (st : List (String × PropDesc) × List (String × ClassData)),
      u₀ ∈ uris ∨ extractLocalName u₀ ∈ keysOf st.1 →
      extractLocalName u₀ ∈ keysOf (uris.foldl (extractPropStep s) st).1 by
    exact hgen s.propSubjects ([], classes) (Or.inl hu)
  intro uris
  induction uris with
  | nil =>
    intro st h
    rcases h with h | h
    · cases h
    · exact h
  | cons u t ih =>
    intro st h
    rw [List.foldl_cons]
    rcases h with h | h
    · rcases List.mem_cons.mp h with he | hm
      · subst he
        exact ih _ (Or.inr (keysOf_extractPropStep_fst_self s st u₀))
      · exact ih _ (Or.inl hm)
    · exact ih _ (Or.inr (keysOf_extractPropStep_fst_mono s st u _ h))

theorem gip_entry_from_own (classes : List (String × ClassData))
    (className : String) (visited : List String) (e : String × PropRef)
    (h : e ∈ getInheritedProperties classes className visited) :
    ∃ c cd, (c, cd) ∈ classes ∧ e ∈ cd.properties := by
  induction className, visited using getInheritedProperties.induct classes with
  | case1 className visited hv =>
    rw [gip_of_visited classes className visited hv] at h
    cases h
  | case2 className visited hnv hnone =>
    rw [gip_of_unknown classes className visited hnv hnone] at h
    cases h
  | case3 className visited hnv cd hcd ih =>
    rw [gip_of_found classes className visited cd hnv hcd] at h
    rcases mem_dictUpdate _ _ _ h with h' | h'
    · cases hs : cd.subClassOf with
      | none =>
        rw [hs] at h'
        cases h'
      | some parentUri =>
        rw [hs] at h'
        exact ih parentUri h'
    · exact ⟨className, cd, alookup_mem hcd, h'⟩

theorem mem_renderProp_id_entry (pd : PropRef) (w : Val)
    (h : ("@id", w) ∈ renderProp pd) : w = Val.str pd.id := by
  unfold renderProp at h
  cases hr : pd.range <;> cases hl : pd.label <;> cases hc : pd.comment <;>
    simp only [hr, hl, hc] at h <;> (try split_ifs at h) <;>
    simp_all [insertKV]

theorem mem_foldl_insertProps (props : List (String × PropRef))
    (ctx0 : List (String × Val)) (p : String × Val)
    (h : p ∈ props.foldl
      (fun ctx q => insertKV ctx ("cim:" ++ q.1) (Val.obj (renderProp q.2))) ctx0) :
    p ∈ ctx0 ∨ ∃ q ∈ props, p = ("cim:" ++ q.1, Val.obj (renderProp q.2)) := by
  induction props generalizing ctx0 with
  | nil => exact Or.inl h
  | cons q t ih =>
    rw [List.foldl_cons] at h
    rcases ih _ h with h' | h'
    · rcases mem_insertKV _ _ _ _ h' with h'' | h''
      · exact Or.inl h''
      · exact Or.inr ⟨q, List.mem_cons_self _ _, h''⟩
    · obtain ⟨q', hq', he⟩ := h'
      exact Or.inr ⟨q', List.mem_cons_of_mem _ hq', he⟩

theorem mem_buildClassContext_cim (b : String) (cd : ClassData)
    (props : List (String × PropRef)) (m : String) (v : Val)
    (h : ("cim:" ++ m, v) ∈ buildClassContext b cd props) :
    ∃ q ∈ props, ("cim:" ++ m : String) = "cim:" ++ q.1 ∧
      v = Val.obj (renderProp q.2) := by
  unfold buildClassContext at h
  rcases mem_foldl_insertProps _ _ _ h with h' | h'
  · exfalso
    cases hs : cd.subClassOf <;> cases hc : cd.comment <;>
      simp only [hs, hc] at h' <;> (try split_ifs at h') <;>
      simp [insertKV] at h' <;>
      (repeat' (obtain h' | h' := h')) <;>
      first
        | exact cim_key_ne m _ (by decide) h'.1
        | exact cim_key_ne m _ (by decide) h'
  · obtain ⟨q, hq, he⟩ := h'
    rw [Prod.mk.injEq] at he
    exact ⟨q, hq, he.1, he.2⟩

theorem foldl_insertKV_fresh {α : Type} (f : String → α) (ks : List String)
    (acc : List (String × α)) (hfresh : ∀ k ∈ ks, k ∉ keysOf acc)
    (hnd : ks.Nodup) :
    ks.foldl (fun a k => insertKV a k (f k)) acc =
      acc ++ ks.map (fun k => (k, f k)) := by
  induction ks generalizing acc with
  | nil => simp
  | cons k t ih =>
    rw [List.foldl_cons,
      insertKV_of_not_mem _ _ _ (hfresh k (List.mem_cons_self _ _)), ih]
    · simp
    · intro k' hk'
      simp only [keysOf, List.map_append, List.map_cons, List.map_nil,
        List.mem_append, List.mem_cons]
      rintro (h' | h' | h')
      · exact hfresh k' (List.mem_cons_of_mem _ hk') (by simpa [keysOf] using h')
      · exact (List.nodup_cons.mp hnd).1 (h' ▸ hk')
      · cases h'
    · exact (List.nodup_cons.mp hnd).2

/-- The per-class root-context entry for class local name `n`. -/
def rootEntry (contextBaseUrl : Option String) (n : String) : String × Val :=
  (n, Val.obj [("@id", Val.str ("cim:" ++ n)),
               ("@context", Val.str (classContextUrl contextBaseUrl n))])

theorem charListLt_iff_lex (x y : List Char) :
    charListLt x y = true ↔ List.Lex (· < ·) x y := by
  induction x generalizing y with
  | nil =>
    cases y with
    | nil =>
      simp only [charListLt, Bool.false_eq_true, false_iff]
      intro h
      cases h
    | cons b bs =>
      simp only [charListLt, true_iff]
      exact List.Lex.nil
  | cons a as ih =>
    cases y with
    | nil =>
      simp only [charListLt, Bool.false_eq_true, false_iff]
      intro h
      cases h
    | cons b bs =>
      simp only [charListLt]
      by_cases hab : a < b
      · simp only [if_pos hab, true_iff]
        exact List.Lex.rel hab
      · by_cases hba : b < a
        · simp only [if_neg hab, if_pos hba, Bool.false_eq_true, false_iff]
          intro h
          cases h with
          | cons h' => exact absurd hba (lt_irrefl a)
          | rel h' => exact hab h'
        · have heq : a = b := le_antisymm (not_lt.mp hba) (not_lt.mp hab)
          subst heq
          simp only [if_neg hab, if_neg hba]
          rw [ih bs]
          exact List.Lex.cons_iff.symm

theorem pyLt_iff_lt (a b : String) : pyLt a b ↔ a < b := by
  unfold pyLt
  rw [charListLt_iff_lex, String.lt_iff_toList_lt]
  exact Iff.rfl

theorem pyLe_iff_le (a b : String) : pyLe a b ↔ a ≤ b := by
  have h1 : pyLe a b ↔ ¬ pyLt b a := by
    unfold pyLe pyLt
    cases charListLt b.data a.data <;> simp
  rw [h1, pyLt_iff_lt]
  exact not_lt

instance : IsTotal String pyLe :=
  ⟨fun a b => by
    rw [pyLe_iff_le, pyLe_iff_le]
    exact le_total a b⟩

instance : IsTrans String pyLe :=
  ⟨fun a b c hab hbc => (pyLe_iff_le a c).mpr
    (le_trans ((pyLe_iff_le a b).mp hab) ((pyLe_iff_le b c).mp hbc))⟩

instance : IsAntisymm String pyLe :=
  ⟨fun a b hab hba =>
    le_antisymm ((pyLe_iff_le a b).mp hab) ((pyLe_iff_le b a).mp hba)⟩

theorem generateMainContext_eq (b : String) (u : Option String)
    (classes : List (String × ClassData))
    (hnd : (keysOf classes).Nodup)
    (hdisj : ∀ n ∈ keysOf classes, n ∉ (["cim", "xsd", "rdf", "rdfs"] : List String)) :
    generateMainContext b u classes =
      [("@context", Val.obj (nsPreamble b ++
        (List.insertionSort pyLe (keysOf classes)).map (rootEntry u)))] := by
  unfold generateMainContext
  have hperm : (List.insertionSort pyLe (keysOf classes)).Perm (keysOf classes) :=
    List.perm_insertionSort _ _
  rw [show (fun (acc : List (String × Val)) (className : String) =>
      insertKV acc className
        (Val.obj [("@id", Val.str ("cim:" ++ className)),
                  ("@context", Val.str (classContextUrl u className))])) =
      (fun acc k => insertKV acc k ((fun n => Val.obj
        [("@id", Val.str ("cim:" ++ n)),
         ("@context", Val.str (classContextUrl u n))]) k)) from rfl]
  rw [foldl_insertKV_fresh _ _ _ ?hfresh ?hnd2]
  case hfresh =>
    intro k hk
    have hk' : k ∈ keysOf classes := hperm.mem_iff.mp hk
    have := hdisj k hk'
    simp only [nsPreamble, keysOf, List.map_cons, List.map_nil]
    simpa using this
  case hnd2 => exact hperm.nodup_iff.mpr hnd
  rfl

theorem sorted_lt_insertionSort (l : List String) (hnd : l.Nodup) :
    List.Sorted pyLt (List.insertionSort pyLe l) := by
  have hs : List.Sorted pyLe (List.insertionSort pyLe l) :=
    List.sorted_insertionSort _ _
  have hn : (List.insertionSort pyLe l).Nodup :=
    (List.perm_insertionSort _ _).nodup_iff.mpr hnd
  exact hs.imp₂ (fun a b hle hne =>
    (pyLt_iff_lt a b).mpr (lt_of_le_of_ne ((pyLe_iff_le a b).mp hle) hne)) hn

theorem insertionSort_eq_of_perm (l₁ l₂ : List String) (h : l₁.Perm l₂) :
    List.insertionSort pyLe l₁ = List.insertionSort pyLe l₂ :=
  List.eq_of_perm_of_sorted
    ((List.perm_insertionSort _ _).trans (h.trans (List.perm_insertionSort _ _).symm))
    (List.sorted_insertionSort _ _) (List.sorted_insertionSort _ _)

theorem nodup_keysOf_extractClasses (s : Store) :
    (keysOf (extractClasses s)).Nodup := by
  unfold extractClasses
  suffices hgen : ∀ (uris : List String) (acc : List (String × ClassData)),
      (keysOf acc).Nodup →
      (keysOf (uris.foldl (fun acc uri =>
        insertKV acc (extractLocalName uri)
          { id := uri
            label := pyOr (s.label uri) (extractLocalName uri)
            comment := s.comment uri
            subClassOf := s.subClassOf uri
            properties := [] }) acc)).Nodup by
    exact hgen s.classSubjects [] (by simp [keysOf])
  intro uris
  induction uris with
  | nil => intro acc h; exact h
  | cons u t ih =>
    intro acc h
    rw [List.foldl_cons]
    exact ih _ (nodup_keysOf_insertKV _ _ _ h)

theorem mem_foldl_insertKV_gen {α : Type} (g : String → String) (f : String → α)
    (uris : List String) (acc : List (String × α)) (p : String × α)
    (h : p ∈ uris.foldl (fun a u => insertKV a (g u) (f u)) acc) :
    p ∈ acc ∨ ∃ u ∈ uris, p = (g u, f u) := by
  induction uris generalizing acc with
  | nil => exact Or.inl h
  | cons u t ih =>
    rw [List.foldl_cons] at h
    rcases ih _ h with h' | h'
    · rcases mem_insertKV _ _ _ _ h' with h'' | h''
      · exact Or.inl h''
      · exact Or.inr ⟨u, List.mem_cons_self _ _, h''⟩
    · obtain ⟨u', hu', he⟩ := h'
      exact Or.inr ⟨u', List.mem_cons_of_mem _ hu', he⟩

theorem mem_extractClasses (s : Store) (n : String) (cd : ClassData)
    (h : (n, cd) ∈ extractClasses s) :
    n = extractLocalName cd.id ∧ cd.id ∈ s.classSubjects ∧
    cd.label = pyOr (s.label cd.id) n ∧ cd.comment = s.comment cd.id ∧
    cd.subClassOf = s.subClassOf cd.id ∧ cd.properties = [] := by
  unfold extractClasses at h
  rcases mem_foldl_insertKV_gen extractLocalName
      (fun u => ({ id := u
                   label := pyOr (s.label u) (extractLocalName u)
                   comment := s.comment u
                   subClassOf := s.subClassOf u
                   properties := [] } : ClassData)) s.classSubjects [] (n, cd) h
    with h' | h'
  · cases h'
  · obtain ⟨u, hu, he⟩ := h'
    rw [Prod.mk.injEq] at he
    obtain ⟨he1, he2⟩ := he
    subst he2
    subst he1
    exact ⟨rfl, hu, rfl, rfl, rfl, rfl⟩

theorem keysOf_map_rootEntry (u : Option String) (l : List String) :
    keysOf (l.map (rootEntry u)) = l := by
  induction l with
  | nil => rfl
  | cons k t ih => simp [keysOf, rootEntry] at ih ⊢; exact ih

/-- Example datatype property `p` of class `A` (range `xsd:string`). -/
def propPA : PropRef :=
  { id := "http://ex#p", label := none, comment := none,
    range := some "http://www.w3.org/2001/XMLSchema#string" }

/-- Example object property `p` of class `B` (range an object reference). -/
def propPB : PropRef :=
  { id := "http://ex#p", label := none, comment := none,
    range := some "http://ex#Thing" }

/-- Example class `A` declaring datatype property `p`. -/
def classA : ClassData :=
  { id := "http://ex#A", label := "A", comment := none, subClassOf := none,
    properties := [("p", propPA)] }

/-- Example class `B`, subclass of `A`, overriding `p` with an object
reference. -/
def classB : ClassData :=
  { id := "http://ex#B", label := "B", comment := none,
    subClassOf := some "http://ex#A", properties := [("p", propPB)] }

/-- Registry for the override scenario: `B subClassOf A`, both declare `p`. -/
def regAB : List (String × ClassData) := [("A", classA), ("B", classB)]

/-- Registry for the transitive chain `C subClassOf B subClassOf A`, one
distinct property each. -/
def chainRegistry : List (String × ClassData) :=
  [("A", { id := "http://ex#A", label := "A", comment := none,
           subClassOf := none,
           properties := [("pa", { id := "http://ex#pa", label := none,
                                   comment := none, range := none })] }),
   ("B", { id := "http://ex#B", label := "B", comment := none,
           subClassOf := some "http://ex#A",
           properties := [("pb", { id := "http://ex#pb", label := none,
                                   comment := none, range := none })] }),
   ("C", { id := "http://ex#C", label := "C", comment := none,
           subClassOf := some "http://ex#B",
           properties := [("pc", { id := "http://ex#pc", label := none,
                                   comment := none, range := none })] })]

/-- Example property `px` of the cyclic class `X`. -/
def propX : PropRef :=
  { id := "http://ex#px", label := none, comment := none, range := none }

/-- Example property `py` of the cyclic class `Y`. -/
def propY : PropRef :=
  { id := "http://ex#py", label := none, comment := none, range := none }

/-- Registry with a subclass cycle: `X subClassOf Y` and `Y subClassOf X`. -/
def cycleRegistry : List (String × ClassData) :=
  [("X", { id := "http://ex#X", label := "X", comment := none,
           subClassOf := some "http://ex#Y", properties := [("px", propX)] }),
   ("Y", { id := "http://ex#Y", label := "Y", comment := none,
           subClassOf := some "http://ex#X", properties := [("py", propY)] })]

/-- C1: for every class name, the effective property set computed by
`_get_inherited_properties` equals the overlay of the own-property mappings
of its superclass chain, farthest ancestor first, finished by the class's
own mapping; a name declared by both an ancestor and a descendant resolves
to the descendant's definition (`B` overrides `A`'s `p`, typed `"@id"`
versus `"xsd:string"`), and for the chain `C subClassOf B subClassOf A`
with one distinct property each, `C`'s effective set contains all three. -/
theorem effective_set_is_ancestor_overlay :
    (∀ (classes : List (String × ClassData)) (className : String),
      getInheritedProperties classes className [] =
        overlayEffectiveSet classes className) ∧
    alookup (getInheritedProperties regAB "B" []) "p" = some propPB ∧
    alookup (getInheritedProperties regAB "A" []) "p" = some propPA ∧
    alookup (renderProp propPB) "@type" = some (Val.str "@id") ∧
    alookup (renderProp propPA) "@type" = some (Val.str "xsd:string") ∧
    keysOf (getInheritedProperties chainRegistry "C" []) = ["pa", "pb", "pc"] := by
  refine ⟨fun classes className => gip_eq_overlay classes className [],
    ?_, ?_, ?_, ?_, ?_⟩
  · simp [getInheritedProperties, regAB, classA, classB, alookup, dictUpdate,
      insertKV, extractLocalName, afterLastChar]
  · simp [getInheritedProperties, regAB, classA, classB, alookup, dictUpdate,
      insertKV, extractLocalName, afterLastChar]
  · simp [renderProp, propPB, alookup, insertKV, containsSubstr, occursInChars]
  · simp [renderProp, propPA, alookup, insertKV, containsSubstr, occursInChars,
      extractLocalName, afterLastChar]
  · simp [getInheritedProperties, chainRegistry, alookup, dictUpdate,
      insertKV, extractLocalName, afterLastChar, keysOf]

/-- C2: resolution terminates on every registry (the Lean function is total,
with a termination measure counting unvisited class names); a name already
in the visited set returns an empty mapping at once, an unknown class name
returns an empty mapping, and on the two-class cycle
`X subClassOf Y subClassOf X` both resolutions return finite mappings. -/
theorem resolver_cycle_safe :
    (∀ (classes : List (String × ClassData)) (className : String)
       (visited : List String), className ∈ visited →
      getInheritedProperties classes className visited = []) ∧
    (∀ (classes : List (String × ClassData)) (className : String)
       (visited : List String), className ∉ visited →
      className ∉ keysOf classes →
      getInheritedProperties classes className visited = []) ∧
    getInheritedProperties cycleRegistry "X" [] = [("py", propY), ("px", propX)] ∧
    getInheritedProperties cycleRegistry "Y" [] = [("px", propX), ("py", propY)] := by
  refine ⟨gip_of_visited, ?_, ?_, ?_⟩
  · intro classes className visited hnv hk
    exact gip_of_unknown classes className visited hnv
      ((alookup_eq_none_iff _ _).mpr hk)
  · simp [getInheritedProperties, cycleRegistry, alookup, dictUpdate,
      insertKV, extractLocalName, afterLastChar]
  · simp [getInheritedProperties, cycleRegistry, alookup, dictUpdate,
      insertKV, extractLocalName, afterLastChar]

/-- Witness for C2: the visited-set guard fires on a concrete call. -/
theorem resolver_cycle_safe_witness :
    getInheritedProperties cycleRegistry "X" ["X"] = [] :=
  resolver_cycle_safe.1 cycleRegistry "X" ["X"] (by decide)

/-- C3: a property entry emitted into a class context whose descriptor has a
(truthy) range URI is rendered with `@type` = `"xsd:" ++` the local name of
the range URI (part after the final `#`, else final `/`) when the range URI
contains the substring `"XMLSchema"`, and with `@type` = `"@id"` otherwise;
the class document maps `cim:<name>` to exactly that rendered object. -/
theorem property_type_from_range (b : String) (cd : ClassData)
    (props : List (String × PropRef)) (n : String) (pd : PropRef) (r : String)
    (hnd : (keysOf props).Nodup) (hmem : (n, pd) ∈ props)
    (hr : pd.range = some r) (hne : r ≠ "") :
    alookup (buildClassContext b cd props) ("cim:" ++ n) =
      some (Val.obj (renderProp pd)) ∧
    alookup (renderProp pd) "@type" =
      some (Val.str (if containsSubstr r "XMLSchema"
        then "xsd:" ++ extractLocalName r else "@id")) :=
  ⟨alookup_buildClassContext_prop b cd props n pd hnd hmem,
   alookup_renderProp_type_of_range pd r hr hne⟩

/-- Witness for C3: the datatype property `p` of class `A` renders with
`@type` = `"xsd:string"` inside `A`'s context document. -/
theorem property_type_from_range_witness :
    alookup (buildClassContext "b" classA [("p", propPA)]) ("cim:" ++ "p") =
      some (Val.obj (renderProp propPA)) ∧
    alookup (renderProp propPA) "@type" =
      some (Val.str (if containsSubstr "http://www.w3.org/2001/XMLSchema#string"
          "XMLSchema"
        then "xsd:" ++ extractLocalName "http://www.w3.org/2001/XMLSchema#string"
        else "@id")) :=
  property_type_from_range "b" classA [("p", propPA)] "p" propPA
    "http://www.w3.org/2001/XMLSchema#string"
    (by decide) (by decide) rfl (by decide)

/-- C10 (implicit): a property entry whose descriptor has no range at all is
emitted with an `@id` key but no `@type` key. -/
theorem rangeless_property_untyped (b : String) (cd : ClassData)
    (props : List (String × PropRef)) (n : String) (pd : PropRef)
    (hnd : (keysOf props).Nodup) (hmem : (n, pd) ∈ props)
    (hr : pd.range = none) :
    alookup (buildClassContext b cd props) ("cim:" ++ n) =
      some (Val.obj (renderProp pd)) ∧
    alookup (renderProp pd) "@id" = some (Val.str pd.id) ∧
    alookup (renderProp pd) "@type" = none :=
  ⟨alookup_buildClassContext_prop b cd props n pd hnd hmem,
   alookup_renderProp_id pd,
   alookup_renderProp_type_of_no_range pd hr⟩

/-- Witness for C10: the range-less property `px` is emitted untyped. -/
theorem rangeless_property_untyped_witness :
    alookup (buildClassContext "b" classA [("px", propX)]) ("cim:" ++ "px") =
      some (Val.obj (renderProp propX)) ∧
    alookup (renderProp propX) "@id" = some (Val.str propX.id) ∧
    alookup (renderProp propX) "@type" = none :=
  rangeless_property_untyped "b" classA [("px", propX)] "px" propX
    (by decide) (by decide) rfl

/-- C7: every document emitted by `generate_class_contexts` carries the
class's source URI as `@id`, `"rdfs:Class"` as `@type`, the class label
(which extraction defaulted to the local name when absent) as `rdfs:label`;
`rdfs:comment` appears exactly when a (truthy) comment was extracted and
`rdfs:subClassOf` appears exactly when a (truthy) superclass was recorded,
as the object `{"@id": parent, "@type": "@id"}`. -/
theorem class_context_shape :
    (∀ (b : String) (classes : List (String × ClassData)) (n : String)
       (doc : List (String × Val)),
      (n, doc) ∈ generateClassContexts b classes →
      ∃ cd, (n, cd) ∈ classes ∧
        alookup doc "@id" = some (Val.str cd.id) ∧
        alookup doc "@type" = some (Val.str "rdfs:Class") ∧
        alookup doc "rdfs:label" = some (Val.str cd.label) ∧
        (∀ c, cd.comment = some c → c ≠ "" →
          alookup doc "rdfs:comment" = some (Val.str c)) ∧
        (cd.comment = none → alookup doc "rdfs:comment" = none) ∧
        (∀ p, cd.subClassOf = some p → p ≠ "" →
          alookup doc "rdfs:subClassOf" =
            some (Val.obj [("@id", Val.str p), ("@type", Val.str "@id")])) ∧
        (cd.subClassOf = none → alookup doc "rdfs:subClassOf" = none)) ∧
    (∀ (s : Store) (n : String) (cd : ClassData),
      (n, cd) ∈ extractClasses s → cd.label = pyOr (s.label cd.id) n) := by
  constructor
  · intro b classes n doc hdoc
    unfold generateClassContexts at hdoc
    rw [List.mem_map] at hdoc
    obtain ⟨⟨n', cd⟩, hmem, he⟩ := hdoc
    rw [Prod.mk.injEq] at he
    obtain ⟨he1, he2⟩ := he
    subst he1
    refine ⟨cd, hmem, ?_⟩
    rw [← he2]
    exact ⟨alookup_buildClassContext_id _ _ _,
      alookup_buildClassContext_type _ _ _,
      alookup_buildClassContext_label _ _ _,
      fun c hc hne => alookup_buildClassContext_comment_some _ _ _ c hc hne,
      fun hc => alookup_buildClassContext_comment_none _ _ _ hc,
      fun p hp hne => alookup_buildClassContext_subclass_some _ _ _ p hp hne,
      fun hp => alookup_buildClassContext_subclass_none _ _ _ hp⟩
  · intro s n cd h
    exact (mem_extractClasses s n cd h).2.2.1

/-- Witness for C7: the shape facts hold for the concrete two-class
registry of the override scenario. -/
theorem class_context_shape_witness :
    ∃ cd, ("A", cd) ∈ regAB ∧
      alookup (buildClassContext "b" classA
        (getInheritedProperties regAB "A" [])) "@id" = some (Val.str cd.id) ∧
      alookup (buildClassContext "b" classA
        (getInheritedProperties regAB "A" [])) "@type" =
          some (Val.str "rdfs:Class") ∧
      alookup (buildClassContext "b" classA
        (getInheritedProperties regAB "A" [])) "rdfs:label" =
          some (Val.str cd.label) ∧
      (∀ c, cd.comment = some c → c ≠ "" →
        alookup (buildClassContext "b" classA
          (getInheritedProperties regAB "A" [])) "rdfs:comment" =
            some (Val.str c)) ∧
      (cd.comment = none →
        alookup (buildClassContext "b" classA
          (getInheritedProperties regAB "A" [])) "rdfs:comment" = none) ∧
      (∀ p, cd.subClassOf = some p → p ≠ "" →
        alookup (buildClassContext "b" classA
          (getInheritedProperties regAB "A" [])) "rdfs:subClassOf" =
            some (Val.obj [("@id", Val.str p), ("@type", Val.str "@id")])) ∧
      (cd.subClassOf = none →
        alookup (buildClassContext "b" classA
          (getInheritedProperties regAB "A" [])) "rdfs:subClassOf" = none) :=
  class_context_shape.1 "b" regAB "A"
    (buildClassContext "b" classA (getInheritedProperties regAB "A" []))
    (by simp [generateClassContexts, regAB])

/-- Store with one class `A` and one property `q` that has no domain. -/
def storeOrphan : Store :=
  { classSubjects := ["http://ex#A"]
    propSubjects := ["http://ex#q"]
    label := fun _ => none
    comment := fun _ => none
    subClassOf := fun _ => none
    domain := fun _ => none
    range := fun _ => none }

/-- C4: an extracted property whose domain is absent, or whose domain's
local name matches no class of the registry, stays recorded in the global
property registry under its local name, is attached to no class's
own-property mapping, surfaces in no effective property set, and no
`cim:`-keyed entry of any generated class context document carries its
`@id`. -/
theorem properties_without_domain_dropped (s : Store) (b : String) (u₀ : String)
    (hu : u₀ ∈ s.propSubjects)
    (hdom : ∀ d, s.domain u₀ = some d →
      extractLocalName d ∉ keysOf (extractClasses s)) :
    extractLocalName u₀ ∈ keysOf (extractProperties s (extractClasses s)).1 ∧
    (∀ p ∈ (extractProperties s (extractClasses s)).2,
      ∀ q ∈ p.2.properties, q.2.id ≠ u₀) ∧
    (∀ c : String,
      ∀ e ∈ getInheritedProperties (extractProperties s (extractClasses s)).2 c [],
        e.2.id ≠ u₀) ∧
    (∀ p ∈ generateClassContexts b (extractProperties s (extractClasses s)).2,
      ∀ (m : String) (v : Val), ("cim:" ++ m, v) ∈ p.2 →
        ∀ fields, v = Val.obj fields → ("@id", Val.str u₀) ∉ fields) := by
  have hstart : ∀ p ∈ extractClasses s, ∀ q ∈ p.2.properties, q.2.id ≠ u₀ := by
    intro p hp q hq
    obtain ⟨n, cd⟩ := p
    have := (mem_extractClasses s n cd hp).2.2.2.2.2
    simp only [] at hq
    rw [this] at hq
    cases hq
  have hno : ∀ p ∈ (extractProperties s (extractClasses s)).2,
      ∀ q ∈ p.2.properties, q.2.id ≠ u₀ :=
    extractProperties_no_attach s (extractClasses s) u₀ hdom hstart
  have heff : ∀ c : String,
      ∀ e ∈ getInheritedProperties (extractProperties s (extractClasses s)).2 c [],
        e.2.id ≠ u₀ := by
    intro c e he
    obtain ⟨c', cd, hcd, hown⟩ :=
      gip_entry_from_own (extractProperties s (extractClasses s)).2 c [] e he
    exact hno (c', cd) hcd e hown
  refine ⟨extractProperties_records s (extractClasses s) u₀ hu, hno, heff, ?_⟩
  intro p hp m v hv fields hfe hmem
  unfold generateClassContexts at hp
  rw [List.mem_map] at hp
  obtain ⟨⟨n', cd⟩, hmemc, he⟩ := hp
  rw [← he] at hv
  simp only [] at hv
  obtain ⟨q, hq, _, hobj⟩ :=
    mem_buildClassContext_cim b cd
      (getInheritedProperties (extractProperties s (extractClasses s)).2 n' []) m v hv
  rw [hobj] at hfe
  have hfields : fields = renderProp q.2 := (Val.obj.inj hfe).symm
  rw [hfields] at hmem
  have := mem_renderProp_id_entry q.2 (Val.str u₀) hmem
  have hid : q.2.id = u₀ := (Val.str.inj this).symm
  exact heff n' q hq hid

/-- Witness for C4: a property with no domain on a one-class store. -/
theorem properties_without_domain_dropped_witness :
    extractLocalName "http://ex#q" ∈
      keysOf (extractProperties storeOrphan (extractClasses storeOrphan)).1 ∧
    (∀ p ∈ (extractProperties storeOrphan (extractClasses storeOrphan)).2,
      ∀ q ∈ p.2.properties, q.2.id ≠ "http://ex#q") ∧
    (∀ c : String,
      ∀ e ∈ getInheritedProperties
          (extractProperties storeOrphan (extractClasses storeOrphan)).2 c [],
        e.2.id ≠ "http://ex#q") ∧
    (∀ p ∈ generateClassContexts "b"
        (extractProperties storeOrphan (extractClasses storeOrphan)).2,
      ∀ (m : String) (v : Val), ("cim:" ++ m, v) ∈ p.2 →
        ∀ fields, v = Val.obj fields →
          ("@id", Val.str "http://ex#q") ∉ fields) :=
  properties_without_domain_dropped storeOrphan "b" "http://ex#q"
    (by decide) (fun d hd => Option.noConfusion hd)

/-- A class whose local name collides with the namespace prefix `rdfs`. -/
def classNamedRdfs : ClassData :=
  { id := "http://ex#rdfs", label := "rdfs", comment := none,
    subClassOf := none, properties := [] }

/-- A class with local name `a`, lexicographically before `rdfs`. -/
def classNamedA : ClassData :=
  { id := "http://ex#a", label := "a", comment := none,
    subClassOf := none, properties := [] }

/-- Registry whose class names collide with the preamble prefix `rdfs`. -/
def collidingRegistry : List (String × ClassData) :=
  [("rdfs", classNamedRdfs), ("a", classNamedA)]

/-- The keys of the `@context` object of a root document. -/
def rootInnerKeys (doc : List (String × Val)) : List String :=
  match alookup doc "@context" with
  | some (Val.obj fields) => keysOf fields
  | _ => []

/-- The string stored under `"@context"` inside the root document's entry
for class `n` (the per-class context URL). -/
def entryContextUrl (doc : List (String × Val)) (n : String) : Option String :=
  match alookup doc "@context" with
  | some (Val.obj fields) =>
    match alookup fields n with
    | some (Val.obj entry) =>
      match alookup entry "@context" with
      | some (Val.str s) => some s
      | _ => none
    | _ => none
  | _ => none

/-- Counterexample to C5 as stated: with classes named `rdfs` and `a`, the
class entry for `rdfs` replaces the namespace-prefix entry in place, so the
per-class entries appear in order `rdfs`, `a` — not ascending. -/
theorem root_order_counterexample :
    (rootInnerKeys (generateMainContext "b" none collidingRegistry)).filter
      (fun k => k ∈ keysOf collidingRegistry) = ["rdfs", "a"] ∧
    ¬ List.Sorted pyLt (["rdfs", "a"] : List String) := by
  constructor
  · decide
  · decide

/-- C5 (amended): provided no class local name collides with one of the
four namespace-prefix keys (`cim`, `xsd`, `rdf`, `rdfs`) and class names
are distinct, the root document is the preamble followed by one entry per
class in strictly ascending name order, each `{"@id": "cim:<name>",
"@context": <url>}`, and the document is the same for any extraction order
of the classes; a class named like a prefix instead replaces the prefix
entry in place (see the counterexample). -/
theorem root_context_sorted (b : String) (u : Option String)
    (classes : List (String × ClassData))
    (hnd : (keysOf classes).Nodup)
    (hdisj : ∀ n ∈ keysOf classes,
      n ∉ (["cim", "xsd", "rdf", "rdfs"] : List String)) :
    generateMainContext b u classes =
      [("@context", Val.obj (nsPreamble b ++
        (List.insertionSort pyLe (keysOf classes)).map (rootEntry u)))] ∧
    List.Sorted pyLt
      (keysOf ((List.insertionSort pyLe (keysOf classes)).map (rootEntry u))) ∧
    (∀ classes₂ : List (String × ClassData),
      (keysOf classes).Perm (keysOf classes₂) →
      generateMainContext b u classes = generateMainContext b u classes₂) := by
  refine ⟨generateMainContext_eq b u classes hnd hdisj, ?_, ?_⟩
  · rw [keysOf_map_rootEntry]
    exact sorted_lt_insertionSort _ hnd
  · intro classes₂ hperm
    unfold generateMainContext
    rw [insertionSort_eq_of_perm _ _ hperm]

/-- Witness for C5 (amended): the one-class registry. -/
theorem root_context_sorted_witness :
    generateMainContext "b" none [("A", classA)] =
      [("@context", Val.obj (nsPreamble "b" ++
        (List.insertionSort pyLe (keysOf [("A", classA)])).map
          (rootEntry none)))] :=
  (root_context_sorted "b" none [("A", classA)] (by decide) (by decide)).1

/-- Class `N` used in the URL-mode examples. -/
def classN : ClassData :=
  { id := "http://ex#N", label := "N", comment := none, subClassOf := none,
    properties := [] }

/-- Counterexample to C6 as stated: with `contextBaseUrl` set to `"/"`, the
stored value strips to `""`, which is falsy, so the emitted URL is the
relative `"CIM/N.jsonld"`, not `"<stripped>/CIM/N.jsonld"` =
`"/CIM/N.jsonld"` as the claim requires for a set `contextBaseUrl`. -/
theorem url_mode_counterexample :
    initContextBaseUrl (some "/") = some "" ∧
    classContextUrl (initContextBaseUrl (some "/")) "N" = "CIM/N.jsonld" ∧
    rstripSlashes "/" ++ "/CIM/" ++ "N" ++ ".jsonld" = "/CIM/N.jsonld" ∧
    ("CIM/N.jsonld" : String) ≠ "/CIM/N.jsonld" ∧
    entryContextUrl (generateMainContext "b" (initContextBaseUrl (some "/"))
      [("N", classN)]) "N" = some "CIM/N.jsonld" := by
  refine ⟨?_, ?_, ?_, ?_, ?_⟩ <;> decide

/-- C6 (amended): with `contextBaseUrl` unset the per-class `@context`
value is the relative `CIM/<Name>.jsonld`; with it set to a string that is
still nonempty after stripping all trailing slashes, the value is
`<stripped>/CIM/<Name>.jsonld` (so `"https://h/c"` and `"https://h/c/"`
both yield `"https://h/c/CIM/<Name>.jsonld"`); a value that strips to the
empty string behaves as unset. -/
theorem url_mode_switch (n : String) :
    (∀ b : String, b ≠ "" → rstripSlashes b ≠ "" →
      classContextUrl (initContextBaseUrl (some b)) n =
        rstripSlashes b ++ "/CIM/" ++ n ++ ".jsonld") ∧
    classContextUrl (initContextBaseUrl none) n = "CIM/" ++ n ++ ".jsonld" ∧
    rstripSlashes "https://h/c" = "https://h/c" ∧
    rstripSlashes "https://h/c/" = "https://h/c" ∧
    classContextUrl (initContextBaseUrl (some "https://h/c")) n =
      "https://h/c/CIM/" ++ n ++ ".jsonld" ∧
    classContextUrl (initContextBaseUrl (some "https://h/c/")) n =
      "https://h/c/CIM/" ++ n ++ ".jsonld" := by
  have h1 : ∀ b : String, b ≠ "" → rstripSlashes b ≠ "" →
      classContextUrl (initContextBaseUrl (some b)) n =
        rstripSlashes b ++ "/CIM/" ++ n ++ ".jsonld" := by
    intro b hb hs
    have hinit : initContextBaseUrl (some b) = some (rstripSlashes b) := by
      unfold initContextBaseUrl
      simp [hb]
    rw [hinit]
    unfold classContextUrl
    rw [if_pos (by simp [pyTruthy, hs])]
    rfl
  have hcat : ("https://h/c" ++ "/CIM/" : String) = "https://h/c/CIM/" := by decide
  refine ⟨h1, by rfl, by decide, by decide, ?_, ?_⟩
  · rw [h1 "https://h/c" (by decide) (by decide),
      show rstripSlashes "https://h/c" = "https://h/c" from by decide, hcat]
  · rw [h1 "https://h/c/" (by decide) (by decide),
      show rstripSlashes "https://h/c/" = "https://h/c" from by decide, hcat]

/-- Witness for C6 (amended): the absolute-URL branch on a concrete base. -/
theorem url_mode_switch_witness :
    classContextUrl (initContextBaseUrl (some "https://h/c")) "N" =
      rstripSlashes "https://h/c" ++ "/CIM/" ++ "N" ++ ".jsonld" :=
  (url_mode_switch "N").1 "https://h/c" (by decide) (by decide)

/-- Store declaring exactly the two class subjects `u1` and `u2`, with no
further metadata and no properties. -/
def twoClassStore (u1 u2 : String) : Store :=
  { classSubjects := [u1, u2], propSubjects := [],
    label := fun _ => none, comment := fun _ => none,
    subClassOf := fun _ => none, domain := fun _ => none,
    range := fun _ => none }

/-- The class descriptor extracted from a bare class subject. -/
def bareClass (u : String) : ClassData :=
  { id := u, label := extractLocalName u, comment := none, subClassOf := none,
    properties := [] }

theorem extractClasses_twoClassStore_ne (u1 u2 : String)
    (hne : extractLocalName u1 ≠ extractLocalName u2) :
    extractClasses (twoClassStore u1 u2) =
      [(extractLocalName u1, bareClass u1),
       (extractLocalName u2, bareClass u2)] := by
  simp [extractClasses, twoClassStore, insertKV, bareClass, pyOr, hne]

theorem extractClasses_twoClassStore_eq (u1 u2 : String)
    (he : extractLocalName u1 = extractLocalName u2) :
    extractClasses (twoClassStore u1 u2) =
      [(extractLocalName u2, bareClass u2)] := by
  simp [extractClasses, twoClassStore, insertKV, bareClass, pyOr, he]

theorem gip_bare_head (u1 u2 : String)
    (hne : extractLocalName u1 ≠ extractLocalName u2) :
    getInheritedProperties
      [(extractLocalName u1, bareClass u1), (extractLocalName u2, bareClass u2)]
      (extractLocalName u1) [] = [] := by
  rw [gip_of_found _ _ _ (bareClass u1) (by simp) (by simp [alookup])]
  simp [bareClass, dictUpdate]

theorem gip_bare_tail (u1 u2 : String)
    (hne : extractLocalName u1 ≠ extractLocalName u2) :
    getInheritedProperties
      [(extractLocalName u1, bareClass u1), (extractLocalName u2, bareClass u2)]
      (extractLocalName u2) [] = [] := by
  rw [gip_of_found _ _ _ (bareClass u2) (by simp) (by simp [alookup, hne])]
  simp [bareClass, dictUpdate]

theorem gip_bare_single (u : String) (n : String) :
    getInheritedProperties [(n, bareClass u)] n [] = [] := by
  rw [gip_of_found _ _ _ (bareClass u) (by simp) (by simp [alookup])]
  simp [bareClass, dictUpdate]

/-- C8: for two extracted class URIs with distinct local names, exactly two
class context documents are generated, each carrying its own source URI as
`@id`; two URIs with the same local name leave a single registry entry (the
later extraction overwrites the earlier) and a single context document. -/
theorem class_file_per_local_name (b u1 u2 : String) :
    (extractLocalName u1 ≠ extractLocalName u2 →
      generateClassContexts b (extractClasses (twoClassStore u1 u2)) =
        [(extractLocalName u1, buildClassContext b (bareClass u1) []),
         (extractLocalName u2, buildClassContext b (bareClass u2) [])] ∧
      (generateClassContexts b (extractClasses (twoClassStore u1 u2))).length = 2 ∧
      alookup (buildClassContext b (bareClass u1) []) "@id" =
        some (Val.str u1) ∧
      alookup (buildClassContext b (bareClass u2) []) "@id" =
        some (Val.str u2)) ∧
    (extractLocalName u1 = extractLocalName u2 →
      extractClasses (twoClassStore u1 u2) =
        [(extractLocalName u2, bareClass u2)] ∧
      generateClassContexts b (extractClasses (twoClassStore u1 u2)) =
        [(extractLocalName u2, buildClassContext b (bareClass u2) [])] ∧
      (generateClassContexts b (extractClasses (twoClassStore u1 u2))).length = 1 ∧
      alookup (buildClassContext b (bareClass u2) []) "@id" =
        some (Val.str u2)) := by
  constructor
  · intro hne
    have hreg := extractClasses_twoClassStore_ne u1 u2 hne
    have hdocs : generateClassContexts b (extractClasses (twoClassStore u1 u2)) =
        [(extractLocalName u1, buildClassContext b (bareClass u1) []),
         (extractLocalName u2, buildClassContext b (bareClass u2) [])] := by
      rw [hreg]
      unfold generateClassContexts
      simp only [List.map_cons, List.map_nil]
      rw [gip_bare_head u1 u2 hne, gip_bare_tail u1 u2 hne]
    refine ⟨hdocs, by rw [hdocs]; rfl, ?_, ?_⟩
    · exact alookup_buildClassContext_id b (bareClass u1) []
    · exact alookup_buildClassContext_id b (bareClass u2) []
  · intro he
    have hreg := extractClasses_twoClassStore_eq u1 u2 he
    have hdocs : generateClassContexts b (extractClasses (twoClassStore u1 u2)) =
        [(extractLocalName u2, buildClassContext b (bareClass u2) [])] := by
      rw [hreg]
      unfold generateClassContexts
      simp only [List.map_cons, List.map_nil]
      rw [gip_bare_single u2 (extractLocalName u2)]
    exact ⟨hreg, hdocs, by rw [hdocs]; rfl,
      alookup_buildClassContext_id b (bareClass u2) []⟩

/-- Witness for C8: distinct local names `A`, `B`, and colliding local
name `N` from two different namespaces. -/
theorem class_file_per_local_name_witness :
    (generateClassContexts "b"
        (extractClasses (twoClassStore "http://ex#A" "http://ex#B")) =
      [(extractLocalName "http://ex#A",
        buildClassContext "b" (bareClass "http://ex#A") []),
       (extractLocalName "http://ex#B",
        buildClassContext "b" (bareClass "http://ex#B") [])] ∧
     (generateClassContexts "b"
        (extractClasses (twoClassStore "http://ex#A" "http://ex#B"))).length = 2 ∧
     alookup (buildClassContext "b" (bareClass "http://ex#A") []) "@id" =
       some (Val.str "http://ex#A") ∧
     alookup (buildClassContext "b" (bareClass "http://ex#B") []) "@id" =
       some (Val.str "http://ex#B")) ∧
    (extractClasses (twoClassStore "http://a#N" "http://b#N") =
      [(extractLocalName "http://b#N", bareClass "http://b#N")] ∧
     generateClassContexts "b"
        (extractClasses (twoClassStore "http://a#N" "http://b#N")) =
      [(extractLocalName "http://b#N",
        buildClassContext "b" (bareClass "http://b#N") [])] ∧
     (generateClassContexts "b"
        (extractClasses (twoClassStore "http://a#N" "http://b#N"))).length = 1 ∧
     alookup (buildClassContext "b" (bareClass "http://b#N") []) "@id" =
       some (Val.str "http://b#N")) :=
  ⟨(class_file_per_local_name "b" "http://ex#A" "http://ex#B").1 (by decide),
   (class_file_per_local_name "b" "http://a#N" "http://b#N").2 (by decide)⟩

/-- The full conversion pipeline on the extracted model: the per-class
documents and the root document (`convert`, minus file I/O). -/
def convertDocs (baseUri : String) (contextBaseUrl : Option String)
    (s : Store) :
    List (String × List (String × Val)) × List (String × Val) :=
  let classes := (extractProperties s (extractClasses s)).2
  (generateClassContexts baseUri classes,
   generateMainContext baseUri contextBaseUrl classes)

/-- C9: emission is deterministic — generation is a function of the
extracted class and property registries, so two runs over equal extraction
results produce identical class context documents and root document
(identical document values serialise to identical bytes). -/
theorem emission_deterministic (b : String) (u : Option String)
    (s1 s2 : Store)
    (hc : extractClasses s1 = extractClasses s2)
    (hp : extractProperties s1 (extractClasses s1) =
      extractProperties s2 (extractClasses s2)) :
    convertDocs b u s1 = convertDocs b u s2 := by
  unfold convertDocs
  rw [hp]

/-- Witness for C9: two runs over the same store. -/
theorem emission_deterministic_witness :
    convertDocs "b" none storeOrphan = convertDocs "b" none storeOrphan :=
  emission_deterministic "b" none storeOrphan storeOrphan rfl rfl
